import Mathlib

/-
Verification of the leafbridge-deploy deployment engine against its
natural-language specification.  Go code is shallowly embedded: Go strings
become lists of bytes (`List Nat`), Go `int`/`int64` values become `Int`,
fallible functions return `Option`/`Except`, and external effects (file
system, HTTP, OS mutexes) are supplied as explicit oracle parameters.
-/

namespace LeafBridge

/- ===================== Version comparison (datatype package) ============ -/

/-- A Go string, modelled as its sequence of bytes. -/
abbrev ByteStr := List Nat

/-- The byte value of the ASCII dot separator used by `Version.Segments`. -/
def dotByte : Nat := 46

/-- Embeds `strings.IndexByte(v, dotByte)`: the index of the first dot byte,
or `none` when there is no dot. -/
def findDot : ByteStr → Option Nat
  | [] => none
  | b :: rest => if b = dotByte then some 0 else (findDot rest).map (· + 1)

/-- Embeds the segment-yielding loop of `Version.Segments`.  The Go loop
repeatedly cuts at the first dot, yields the prefix, stops when the dot is
the final byte, and finally yields any nonempty remainder.  Each iteration
consumes at least one byte, so a fuel of `v.length` bounds the iteration
count; `segmentsCore` supplies that fuel. -/
def segmentsLoop : Nat → ByteStr → List ByteStr
  | 0, _ => []
  | fuel + 1, v =>
    match findDot v with
    | none => if v = [] then [] else [v]
    | some cut =>
      (v.take cut) ::
        (if cut + 1 ≥ v.length then [] else segmentsLoop fuel (v.drop (cut + 1)))

/-- The list of segments produced by the loop of `Version.Segments`. -/
def segmentsCore (v : ByteStr) : List ByteStr :=
  segmentsLoop v.length v

/-- Embeds `Version.Segments`: an optional leading `v` or `V` byte is
dropped when the version has more than one byte, and the remainder is split
into segments. -/
def segments (v : ByteStr) : List ByteStr :=
  if v.length > 1 ∧ (v.head? = some 118 ∨ v.head? = some 86) then
    segmentsCore v.tail
  else
    segmentsCore v

/-- Embeds `strconv.ParseUint(s, 10, 64)`: succeeds exactly when the string
is nonempty, every byte is an ASCII digit, and the value fits in 64 bits.
Go tracks overflow during accumulation; over `Nat` the same acceptance set
is the final bound check. -/
def parseUint64 (s : ByteStr) : Option Nat :=
  if s = [] then none
  else if s.all (fun b => 48 ≤ b && b ≤ 57) then
    let n := s.foldl (fun acc b => acc * 10 + (b - 48)) 0
    if n < 2 ^ 64 then some n else none
  else none

/-- Embeds `strings.Compare`: bytewise lexicographic comparison returning
-1, 0 or +1, with a strict prefix ordered first. -/
def lexCompare : ByteStr → ByteStr → Int
  | [], [] => 0
  | [], _ :: _ => -1
  | _ :: _, [] => 1
  | a :: as, b :: bs => if a < b then -1 else if b < a then 1 else lexCompare as bs

/-- Embeds `CompareVersionSegments`: numeric comparison when both segments
parse as unsigned 64-bit integers, otherwise comparison by length, and
lexicographic comparison as the final tie-breaker. -/
def compareVersionSegments (a b : ByteStr) : Int :=
  match parseUint64 a, parseUint64 b with
  | some i1, some i2 => if i1 < i2 then -1 else if i2 < i1 then 1 else 0
  | _, _ =>
    if a.length < b.length then -1
    else if b.length < a.length then 1
    else lexCompare a b

/-- Embeds the paired-iterator loop of `CompareVersions`: walk both segment
lists in step; a missing segment compares less than a present one; the
first nonzero segment comparison decides. -/
def cmpSegLists : List ByteStr → List ByteStr → Int
  | [], [] => 0
  | [], _ :: _ => -1
  | _ :: _, [] => 1
  | s1 :: t1, s2 :: t2 =>
    if compareVersionSegments s1 s2 ≠ 0 then compareVersionSegments s1 s2
    else cmpSegLists t1 t2

/-- Embeds `CompareVersions`. -/
def compareVersions (a b : ByteStr) : Int :=
  cmpSegLists (segments a) (segments b)

/- Concrete versions used to exhibit non-transitivity.  The bytes spell the
ASCII strings "0001", "2" and "AB". -/

/-- The version string "0001". -/
def verNum0001 : ByteStr := [48, 48, 48, 49]

/-- The version string "2". -/
def verNum2 : ByteStr := [50]

/-- The version string "AB". -/
def verAB : ByteStr := [65, 66]

theorem lexCompare_antisymm (a : ByteStr) :
    ∀ b : ByteStr, lexCompare a b = -lexCompare b a := by
  induction a with
  | nil =>
    intro b
    cases b <;> simp [lexCompare]
  | cons x xs ih =>
    intro b
    cases b with
    | nil => simp [lexCompare]
    | cons y ys =>
      simp only [lexCompare]
      rcases Nat.lt_trichotomy x y with h | h | h
      · simp [h, Nat.lt_asymm h]
      · simp [h, Nat.lt_irrefl, ih ys]
      · simp [h, Nat.lt_asymm h]

theorem compareVersionSegments_antisymm (a b : ByteStr) :
    compareVersionSegments a b = -compareVersionSegments b a := by
  unfold compareVersionSegments
  rcases hpa : parseUint64 a with _ | i1 <;> rcases hpb : parseUint64 b with _ | i2
  · rcases Nat.lt_trichotomy a.length b.length with h | h | h
    · simp [h, Nat.lt_asymm h]
    · simp [h, Nat.lt_irrefl, lexCompare_antisymm a b]
    · simp [h, Nat.lt_asymm h]
  · rcases Nat.lt_trichotomy a.length b.length with h | h | h
    · simp [h, Nat.lt_asymm h]
    · simp [h, Nat.lt_irrefl, lexCompare_antisymm a b]
    · simp [h, Nat.lt_asymm h]
  · rcases Nat.lt_trichotomy a.length b.length with h | h | h
    · simp [h, Nat.lt_asymm h]
    · simp [h, Nat.lt_irrefl, lexCompare_antisymm a b]
    · simp [h, Nat.lt_asymm h]
  · rcases Nat.lt_trichotomy i1 i2 with h | h | h
    · simp [h, Nat.lt_asymm h]
    · simp [h, Nat.lt_irrefl]
    · simp [h, Nat.lt_asymm h]

theorem cmpSegLists_antisymm (a : List ByteStr) :
    ∀ b : List ByteStr, cmpSegLists a b = -cmpSegLists b a := by
  induction a with
  | nil =>
    intro b
    cases b <;> simp [cmpSegLists]
  | cons x xs ih =>
    intro b
    cases b with
    | nil => simp [cmpSegLists]
    | cons y ys =>
      simp only [cmpSegLists]
      by_cases h : compareVersionSegments x y = 0
      · have h2 : compareVersionSegments y x = 0 := by
          rw [compareVersionSegments_antisymm y x, h]
          rfl
        simp [h, h2, ih ys]
      · have h2 : compareVersionSegments y x ≠ 0 := by
          rw [compareVersionSegments_antisymm y x]
          intro hc
          exact h (by omega)
        simp [h, h2, compareVersionSegments_antisymm x y]

/-- C1 counterexample: `CompareVersions` is not transitive.  "0001" < "2"
numerically, "2" < "AB" by segment length, yet "0001" > "AB" by segment
length, so the claimed transitivity fails. -/
theorem compareVersions_not_transitive :
    compareVersions verNum0001 verNum2 = -1 ∧
    compareVersions verNum2 verAB = -1 ∧
    compareVersions verNum0001 verAB = 1 := by
  refine ⟨?_, ?_, ?_⟩ <;> decide

/-- C1 (amended): version comparison is antisymmetric: for all versions
`a` and `b`, `CompareVersions(a, b) = -CompareVersions(b, a)`, with
segments compared numerically when both parse as unsigned 64-bit integers,
else by length, else lexicographically.  (Transitivity does not hold.) -/
theorem compareVersions_antisymm (a b : ByteStr) :
    compareVersions a b = -compareVersions b a := by
  unfold compareVersions
  exact cmpSegLists_antisymm _ _

/- ===================== ActionStopped event level (lbdeployevent) ======== -/

/-- The Go `slog.LevelDebug` constant. -/
def levelDebug : Int := -4

/-- The Go `slog.LevelInfo` constant. -/
def levelInfo : Int := 0

/-- The Go `slog.LevelError` constant. -/
def levelError : Int := 8

/-- Five seconds in nanoseconds, the Go value `time.Second * 5`. -/
def fiveSeconds : Int := 5000000000

/-- Embeds the fields of `lbdeployevent.ActionStopped` that its `Level`
method inspects: whether `Err` was non-nil, and the start and stop
timestamps in nanoseconds. -/
structure ActionStopped where
  failed : Bool
  started : Int
  stopped : Int

/-- Embeds `ActionStopped.Duration`: `Stopped.Sub(Started)`. -/
def ActionStopped.duration (e : ActionStopped) : Int :=
  e.stopped - e.started

/-- Embeds `ActionStopped.Level`. -/
def ActionStopped.level (e : ActionStopped) : Int :=
  if e.failed then levelError
  else if e.duration < fiveSeconds then levelDebug
  else levelInfo

/-- C9: the level of an `ActionStopped` event is error when the action
failed, debug when it succeeded in under five seconds, and info
otherwise. -/
theorem actionStopped_level_spec (e : ActionStopped) :
    (e.failed = true → e.level = levelError) ∧
    (e.failed = false → e.duration < fiveSeconds → e.level = levelDebug) ∧
    (e.failed = false → fiveSeconds ≤ e.duration → e.level = levelInfo) := by
  refine ⟨fun h => ?_, fun h hd => ?_, fun h hd => ?_⟩
  · simp [ActionStopped.level, h]
  · simp [ActionStopped.level, h, hd]
  · simp [ActionStopped.level, h, not_lt.mpr hd]

/-- C9 witness: the three cases of `actionStopped_level_spec` at concrete
events. -/
theorem actionStopped_level_spec_witness :
    (ActionStopped.mk true 0 0).level = levelError ∧
    (ActionStopped.mk false 0 7).level = levelDebug ∧
    (ActionStopped.mk false 0 fiveSeconds).level = levelInfo :=
  ⟨(actionStopped_level_spec _).1 rfl,
   (actionStopped_level_spec _).2.1 rfl (by decide),
   (actionStopped_level_spec _).2.2 rfl (by decide)⟩

/- ===================== Reentrant locks (internal/reentrantlock) ========= -/

/-- An operation performed on the underlying (non-reentrant) OS mutex. -/
inductive OsOp where
  | osLock
  | osUnlock
  deriving DecidableEq, Repr

/-- Embeds the state of `reentrantlock.Mutex`: the reentrancy counter, a Go
`int`. -/
structure Mutex where
  counter : Int
  deriving DecidableEq, Repr

/-- Embeds `Mutex.Lock`: the underlying mutex is locked only on the 0 to 1
transition of the counter.  The returned list records the operations
performed on the underlying mutex. -/
def Mutex.lockStep (m : Mutex) : Mutex × List OsOp :=
  if m.counter = 0 then (⟨m.counter + 1⟩, [OsOp.osLock])
  else (⟨m.counter + 1⟩, [])

/-- Embeds `Mutex.TryLock`: when the counter is zero the underlying mutex
must be acquired first, and its success is given by the oracle `avail`;
on failure the state is unchanged and no underlying operation sticks. -/
def Mutex.tryLockStep (avail : Bool) (m : Mutex) : Bool × Mutex × List OsOp :=
  if m.counter = 0 then
    if avail then (true, ⟨m.counter + 1⟩, [OsOp.osLock])
    else (false, m, [])
  else (true, ⟨m.counter + 1⟩, [])

/-- Embeds `Mutex.Unlock`: the counter is decremented and the underlying
mutex is released only when the counter reaches zero. -/
def Mutex.unlockStep (m : Mutex) : Mutex × List OsOp :=
  if m.counter - 1 = 0 then (⟨m.counter - 1⟩, [OsOp.osUnlock])
  else (⟨m.counter - 1⟩, [])

/-- N successive calls of `Mutex.Lock`, with the underlying operations
concatenated in order. -/
def lockN : Nat → Mutex → Mutex × List OsOp
  | 0, m => (m, [])
  | n + 1, m =>
    ((lockN n m.lockStep.1).1, m.lockStep.2 ++ (lockN n m.lockStep.1).2)

/-- k successive calls of `Mutex.Unlock`, with the underlying operations
concatenated in order. -/
def unlockN : Nat → Mutex → Mutex × List OsOp
  | 0, m => (m, [])
  | k + 1, m =>
    ((unlockN k m.unlockStep.1).1, m.unlockStep.2 ++ (unlockN k m.unlockStep.1).2)

theorem lockN_of_pos (n : Nat) :
    ∀ m : Mutex, 1 ≤ m.counter → lockN n m = (⟨m.counter + n⟩, []) := by
  induction n with
  | zero =>
    intro m _
    simp [lockN]
  | succ n ih =>
    intro m hm
    have hne : m.counter ≠ 0 := by omega
    rw [lockN]
    simp only [Mutex.lockStep, if_neg hne]
    rw [ih ⟨m.counter + 1⟩ (by simp only []; omega)]
    simp only [List.nil_append, Prod.mk.injEq, Mutex.mk.injEq]
    refine ⟨?_, trivial⟩
    push_cast
    ring

theorem unlockN_of_lt (k : Nat) :
    ∀ m : Mutex, (k : Int) < m.counter → unlockN k m = (⟨m.counter - k⟩, []) := by
  induction k with
  | zero =>
    intro m _
    simp [unlockN]
  | succ k ih =>
    intro m hm
    push_cast at hm
    have hne : m.counter - 1 ≠ 0 := by omega
    rw [unlockN]
    simp only [Mutex.unlockStep, if_neg hne]
    rw [ih ⟨m.counter - 1⟩ (by simp only []; omega)]
    simp only [List.nil_append, Prod.mk.injEq, Mutex.mk.injEq]
    refine ⟨?_, trivial⟩
    push_cast
    ring

theorem unlockN_to_zero (k : Nat) :
    ∀ m : Mutex, m.counter = k + 1 → unlockN (k + 1) m = (⟨0⟩, [OsOp.osUnlock]) := by
  induction k with
  | zero =>
    intro m hm
    rw [unlockN]
    simp [unlockN, Mutex.unlockStep, hm]
  | succ k ih =>
    intro m hm
    push_cast at hm
    have hne : m.counter - 1 ≠ 0 := by omega
    rw [unlockN]
    simp only [Mutex.unlockStep, if_neg hne]
    rw [ih ⟨m.counter - 1⟩ (by simp only []; omega)]
    simp

/-- C7: starting from a free reentrant lock, N successive `Lock()` calls
bring the counter to N while performing exactly one operation on the
underlying OS mutex (a lock, on the 0 to 1 transition); k subsequent
`Unlock()` calls bring the counter to N - k, performing no underlying
operation while k < N and exactly one underlying unlock when the counter
returns to zero. -/
theorem mutex_reentry (N k : Nat) (hN : 1 ≤ N) (hk : k ≤ N) :
    (lockN N ⟨0⟩).1.counter = N ∧
    (lockN N ⟨0⟩).2 = [OsOp.osLock] ∧
    (unlockN k (lockN N ⟨0⟩).1).1.counter = (N : Int) - k ∧
    (unlockN k (lockN N ⟨0⟩).1).2 = (if k = N then [OsOp.osUnlock] else []) := by
  obtain ⟨n, rfl⟩ : ∃ n, N = n + 1 := ⟨N - 1, by omega⟩
  have hlock : lockN (n + 1) ⟨0⟩ = (⟨(n : Int) + 1⟩, [OsOp.osLock]) := by
    rw [lockN]
    have hstep : (⟨0⟩ : Mutex).lockStep = (⟨1⟩, [OsOp.osLock]) := by
      simp [Mutex.lockStep]
    rw [hstep]
    rw [show ((⟨1⟩, [OsOp.osLock]) : Mutex × List OsOp).1 = ⟨1⟩ from rfl]
    rw [lockN_of_pos n ⟨1⟩ (by simp only []; omega)]
    simp only [Prod.mk.injEq, Mutex.mk.injEq]
    constructor
    · omega
    · rfl
  refine ⟨by rw [hlock]; push_cast; ring, by rw [hlock], ?_, ?_⟩
  · rw [hlock]
    rcases Nat.lt_or_ge k (n + 1) with hlt | hge
    · rw [unlockN_of_lt k ⟨(n : Int) + 1⟩ (by simp only []; omega)]
      simp only []
      push_cast
      ring
    · obtain rfl : k = n + 1 := by omega
      rw [unlockN_to_zero n ⟨(n : Int) + 1⟩ (by simp only [])]
      simp
  · rw [hlock]
    rcases Nat.lt_or_ge k (n + 1) with hlt | hge
    · rw [unlockN_of_lt k ⟨(n : Int) + 1⟩ (by simp only []; omega)]
      simp only [if_neg (by omega : ¬ k = n + 1)]
    · obtain rfl : k = n + 1 := by omega
      rw [unlockN_to_zero n ⟨(n : Int) + 1⟩ (by simp only [])]
      simp

/-- C7 witness: three locks followed by three unlocks on a free lock. -/
theorem mutex_reentry_witness :
    (lockN 3 ⟨0⟩).1.counter = 3 ∧
    (lockN 3 ⟨0⟩).2 = [OsOp.osLock] ∧
    (unlockN 3 (lockN 3 ⟨0⟩).1).1.counter = (3 : Int) - 3 ∧
    (unlockN 3 (lockN 3 ⟨0⟩).1).2 = (if 3 = 3 then [OsOp.osUnlock] else []) :=
  mutex_reentry 3 3 (by decide) (by decide)

/- ===================== Lock groups (lbengine lock manager) ============== -/

/-- The joint state of the reentrant locks named by a lock group: each
lock's reentrancy counter, and the trace of operations performed on the
underlying OS mutexes, tagged with the owning lock's id. -/
structure GroupSt (ι : Type) where
  counter : ι → Int
  ops : List (ι × OsOp)

/-- `member.locker.TryLock()` for the group member with id `i`, lifted from
the single-mutex embedding `Mutex.tryLockStep`. -/
def groupTryLock {ι : Type} [DecidableEq ι] (avail : ι → Bool) (s : GroupSt ι) (i : ι) :
    Bool × GroupSt ι :=
  let r := Mutex.tryLockStep (avail i) ⟨s.counter i⟩
  (r.1,
   { counter := Function.update s.counter i r.2.1.counter,
     ops := s.ops ++ r.2.2.map (fun op => (i, op)) })

/-- `member.locker.Unlock()` for the group member with id `i`, lifted from
the single-mutex embedding `Mutex.unlockStep`. -/
def groupUnlock {ι : Type} [DecidableEq ι] (s : GroupSt ι) (i : ι) : GroupSt ι :=
  let r := Mutex.unlockStep ⟨s.counter i⟩
  { counter := Function.update s.counter i r.1.counter,
    ops := s.ops ++ r.2.map (fun op => (i, op)) }

/-- Embeds `LockGroup.Lock`: try each member in declaration order; on the
first failure, release the previously acquired members in reverse order
(the recursion unwinds from member i-1 down to member 0) and report the
offending lock's id, as the returned `LockError` does. -/
def groupLockAux {ι : Type} [DecidableEq ι] (avail : ι → Bool) :
    List ι → GroupSt ι → Option ι × GroupSt ι
  | [], s => (none, s)
  | m :: rest, s =>
    let r := groupTryLock avail s m
    if r.1 then
      let r2 := groupLockAux avail rest r.2
      match r2.1 with
      | none => r2
      | some f => (some f, groupUnlock r2.2 m)
    else (some m, r.2)

/-- The first member of the group whose `TryLock` fails, replaying the
attempts in declaration order: a member fails exactly when its counter is
zero and its underlying OS mutex is unavailable; a successful attempt
increments the member's counter. -/
def firstFailing {ι : Type} [DecidableEq ι] (avail : ι → Bool) :
    List ι → (ι → Int) → Option ι
  | [], _ => none
  | m :: rest, c =>
    if c m = 0 ∧ avail m = false then some m
    else firstFailing avail rest (Function.update c m (c m + 1))

theorem groupLockAux_cons_fail {ι : Type} [DecidableEq ι] {avail : ι → Bool}
    {s s1 : GroupSt ι} {m : ι} (rest : List ι)
    (h : groupTryLock avail s m = (false, s1)) :
    groupLockAux avail (m :: rest) s = (some m, s1) := by
  simp [groupLockAux, h]

theorem groupLockAux_cons_success {ι : Type} [DecidableEq ι] {avail : ι → Bool}
    {s s1 s2 : GroupSt ι} {m f : ι} {rest : List ι}
    (h : groupTryLock avail s m = (true, s1))
    (h2 : groupLockAux avail rest s1 = (some f, s2)) :
    groupLockAux avail (m :: rest) s = (some f, groupUnlock s2 m) := by
  simp [groupLockAux, h, h2]

theorem groupTryLock_fail {ι : Type} [DecidableEq ι] {avail : ι → Bool}
    {s : GroupSt ι} {m : ι} (h0 : s.counter m = 0) (ha : avail m = false) :
    groupTryLock avail s m = (false, s) := by
  obtain ⟨c, ops⟩ := s
  simp only [groupTryLock, Mutex.tryLockStep] at *
  simp [h0, ha, Function.update_eq_self]

theorem groupTryLock_acquire {ι : Type} [DecidableEq ι] {avail : ι → Bool}
    {s : GroupSt ι} {m : ι} (h0 : s.counter m = 0) (ha : avail m = true) :
    groupTryLock avail s m =
      (true,
       { counter := Function.update s.counter m (s.counter m + 1),
         ops := s.ops ++ [(m, OsOp.osLock)] }) := by
  simp [groupTryLock, Mutex.tryLockStep, h0, ha]

theorem groupTryLock_reenter {ι : Type} [DecidableEq ι] {avail : ι → Bool}
    {s : GroupSt ι} {m : ι} (h0 : s.counter m ≠ 0) :
    groupTryLock avail s m =
      (true,
       { counter := Function.update s.counter m (s.counter m + 1),
         ops := s.ops }) := by
  simp [groupTryLock, Mutex.tryLockStep, h0]

theorem groupUnlock_after_acquire {ι : Type} [DecidableEq ι] (c : ι → Int)
    (m : ι) (h0 : c m = 0) (ops2 : List (ι × OsOp)) :
    groupUnlock ⟨Function.update c m (c m + 1), ops2⟩ m = ⟨c, ops2 ++ [(m, OsOp.osUnlock)]⟩ := by
  simp only [groupUnlock, Mutex.unlockStep, Function.update_same]
  have hrel : c m + 1 - 1 = 0 := by omega
  rw [if_pos hrel]
  have hcnt : Function.update (Function.update c m (c m + 1)) m (c m + 1 - 1) = c := by
    rw [Function.update_idem]
    have : c m + 1 - 1 = c m := by omega
    rw [this, Function.update_eq_self]
  simp [hcnt]

theorem groupUnlock_after_reenter {ι : Type} [DecidableEq ι] (c : ι → Int)
    (m : ι) (h0 : c m ≠ 0) (ops2 : List (ι × OsOp)) :
    groupUnlock ⟨Function.update c m (c m + 1), ops2⟩ m = ⟨c, ops2⟩ := by
  simp only [groupUnlock, Mutex.unlockStep, Function.update_same]
  have hrel : ¬ (c m + 1 - 1 = 0) := by omega
  rw [if_neg hrel]
  have hcnt : Function.update (Function.update c m (c m + 1)) m (c m + 1 - 1) = c := by
    rw [Function.update_idem]
    have : c m + 1 - 1 = c m := by omega
    rw [this, Function.update_eq_self]
  simp [hcnt]

/-- C6: acquiring a lock group attempts its members in declaration order;
when some member fails to acquire, the call returns the offending lock's
id (the first failing member), every member's reentrancy counter is left
exactly as it was before the call, and the operations on the underlying
OS mutexes are the acquisitions made for the earlier members followed by
their releases in reverse order (all-or-nothing). -/
theorem lockGroup_allOrNothing {ι : Type} [DecidableEq ι] (avail : ι → Bool)
    (members : List ι) :
    ∀ (s : GroupSt ι) (f : ι), firstFailing avail members s.counter = some f →
      ∃ acquired : List ι,
        groupLockAux avail members s =
          (some f,
           { counter := s.counter,
             ops := s.ops ++ acquired.map (fun i => (i, OsOp.osLock))
                    ++ acquired.reverse.map (fun i => (i, OsOp.osUnlock)) }) := by
  induction members with
  | nil =>
    intro s f h
    simp [firstFailing] at h
  | cons m rest ih =>
    intro s f h
    simp only [firstFailing] at h
    by_cases hc : s.counter m = 0 ∧ avail m = false
    · rw [if_pos hc] at h
      obtain rfl : m = f := by simpa using h
      refine ⟨[], ?_⟩
      rw [groupLockAux_cons_fail rest (groupTryLock_fail hc.1 hc.2)]
      simp
    · rw [if_neg hc] at h
      by_cases hzero : s.counter m = 0
      · have hav : avail m = true := by
          rcases Bool.eq_false_or_eq_true (avail m) with hb | hb
          · exact hb
          · exact absurd ⟨hzero, hb⟩ hc
        obtain ⟨l, hl⟩ := ih
          { counter := Function.update s.counter m (s.counter m + 1),
            ops := s.ops ++ [(m, OsOp.osLock)] } f (by simpa using h)
        refine ⟨m :: l, ?_⟩
        rw [groupLockAux_cons_success (groupTryLock_acquire hzero hav) hl]
        dsimp only
        rw [groupUnlock_after_acquire s.counter m hzero]
        simp [List.map_append]
      · obtain ⟨l, hl⟩ := ih
          { counter := Function.update s.counter m (s.counter m + 1),
            ops := s.ops } f (by simpa using h)
        refine ⟨l, ?_⟩
        rw [groupLockAux_cons_success (groupTryLock_reenter hzero) hl]
        dsimp only
        rw [groupUnlock_after_reenter s.counter m hzero]

/-- Availability oracle for the C6 witness: lock 0 can be acquired, lock 1
cannot. -/
def availW : Fin 2 → Bool := fun i => i = 0

/-- Initial state for the C6 witness: both counters zero, empty trace. -/
def groupStW : GroupSt (Fin 2) := ⟨fun _ => 0, []⟩

/-- C6 witness: a two-member group whose second member fails rolls back the
first member and names lock 1. -/
theorem lockGroup_allOrNothing_witness :
    ∃ acquired : List (Fin 2),
      groupLockAux availW [0, 1] groupStW =
        (some 1,
         { counter := groupStW.counter,
           ops := groupStW.ops ++ acquired.map (fun i => (i, OsOp.osLock))
                  ++ acquired.reverse.map (fun i => (i, OsOp.osUnlock)) }) :=
  lockGroup_allOrNothing availW [0, 1] groupStW 1 (by decide)

/- ===================== Condition engine: file-exists (lbengine) ========= -/

/-- A file-system error, distinguishing the not-exist case that
`os.IsNotExist` recognizes from every other failure. -/
inductive FsErr where
  | notExist
  | other
  deriving DecidableEq, Repr

/-- A typed `ConditionError` as produced by `conditionSelfError`; its
diagnostic payload is irrelevant to the claims. -/
inductive CondErr where
  | conditionError
  deriving DecidableEq, Repr

/-- The file-system outcomes observed by the `ConditionFileExists` branch of
`ConditionEngine.evaluate`: whether the file reference resolves, the result
of opening the parent directory, and the result of `Stat` on the file path
(`ok` carries `fi.Mode().IsRegular()`). -/
structure FileExistsEnv where
  resolveOk : Bool
  openParentDir : Except FsErr Unit
  statFile : Except FsErr Bool

/-- Embeds the `ConditionFileExists` case of `ConditionEngine.evaluate`:
resolution failure errors; an unopenable parent maps not-exist to false and
errors otherwise; any `Stat` failure errors (the code checks no
`os.IsNotExist` there); a regular file yields true; an existing non-regular
path errors. -/
def evaluateFileExists (env : FileExistsEnv) : Except CondErr Bool :=
  if env.resolveOk = false then Except.error CondErr.conditionError
  else
    match env.openParentDir with
    | Except.error e =>
      if e = FsErr.notExist then Except.ok false
      else Except.error CondErr.conditionError
    | Except.ok _ =>
      match env.statFile with
      | Except.error _ => Except.error CondErr.conditionError
      | Except.ok regular =>
        if regular then Except.ok true
        else Except.error CondErr.conditionError

/-- C4: evaluation of the file-exists condition at the two inputs the claim
describes.  When the parent directory opens but the file path does not
exist, the code returns a `ConditionError` wrapping the stat failure rather
than the claimed false-without-error (the `Stat` error path has no
`os.IsNotExist` check); an existing non-regular path errors as claimed. -/
theorem fileExists_notFound_errors :
    evaluateFileExists ⟨true, Except.ok (), Except.error FsErr.notExist⟩ =
      Except.error CondErr.conditionError ∧
    evaluateFileExists ⟨true, Except.ok (), Except.ok false⟩ =
      Except.error CondErr.conditionError := by
  constructor <;> rfl

/- ===================== CopyFile (lbengine file engine) ================== -/

/-- The failure points of `fileEngine.CopyFile`, in code order. -/
inductive CopyErr where
  | sourceResolve
  | destResolve
  | protectedRoot
  | openDestDir
  | statDest
  | destNotRegular
  | openSource
  | createDest
  | copyData
  | statSource
  | modTime
  deriving DecidableEq, Repr

/-- The file-system and resolver outcomes observed by
`fileEngine.CopyFile`: resolution of the two file references, the
protected-root check on the destination, and the results of each
file-system call made by the inner closure. -/
structure CopyEnv where
  resolveSourceOk : Bool
  resolveDestOk : Bool
  destProtected : Bool
  openDestDir : Except FsErr Unit
  statDest : Except FsErr Bool
  openSourceOk : Bool
  createDestOk : Bool
  copyDataOk : Bool
  statSourceOk : Bool
  modTimeZero : Bool
  setModTimeOk : Bool

/-- The fields of the recorded `lbdeployevent.FileCopy` event that the
claims inspect: the `DestinationExisted` flag and the `Err` field. -/
structure FileCopyEvent where
  destinationExisted : Bool
  err : Option CopyErr
  deriving DecidableEq, Repr

/-- Embeds the copy part of the inner closure of `CopyFile`, reached only
when the destination does not already exist: open the source, create the
destination, stream the bytes, re-stat the source and copy a nonzero
modification time. -/
def copyFileData (env : CopyEnv) : Except CopyErr Bool :=
  if env.openSourceOk = false then Except.error CopyErr.openSource
  else if env.createDestOk = false then Except.error CopyErr.createDest
  else if env.copyDataOk = false then Except.error CopyErr.copyData
  else if env.statSourceOk = false then Except.error CopyErr.statSource
  else if env.modTimeZero then Except.ok false
  else if env.setModTimeOk then Except.ok false
  else Except.error CopyErr.modTime

/-- Embeds the inner closure of `CopyFile`: open the destination parent;
stat the destination; an existing regular file is a no-op recording
`DestinationExisted`; an existing non-regular path is an error; a
not-exist stat falls through to the copy.  The returned Bool is
`destFileExisted`. -/
def copyFileInner (env : CopyEnv) : Except CopyErr Bool :=
  match env.openDestDir with
  | Except.error _ => Except.error CopyErr.openDestDir
  | Except.ok _ =>
    match env.statDest with
    | Except.error e =>
      if e ≠ FsErr.notExist then Except.error CopyErr.statDest
      else copyFileData env
    | Except.ok regular =>
      if regular then Except.ok true
      else Except.error CopyErr.destNotRegular

/-- Embeds `fileEngine.CopyFile`: the three early returns propagate their
errors before any event is recorded; afterwards the inner closure's error
is recorded in the `FileCopy` event and the function ends with
`return nil`, so the caller sees no error. -/
def copyFile (env : CopyEnv) : Option FileCopyEvent × Option CopyErr :=
  if env.resolveSourceOk = false then (none, some CopyErr.sourceResolve)
  else if env.resolveDestOk = false then (none, some CopyErr.destResolve)
  else if env.destProtected then (none, some CopyErr.protectedRoot)
  else
    match copyFileInner env with
    | Except.ok existed => (some ⟨existed, none⟩, none)
    | Except.error e => (some ⟨false, some e⟩, none)

/-- C2: `CopyFile` at a destination that exists but is not a regular file:
the error is recorded in the `FileCopy` event, yet the function returns
nil, so no error reaches the invoking action, contradicting the claim. -/
theorem copyFile_nonRegularDest_returnsNil :
    copyFile
      { resolveSourceOk := true, resolveDestOk := true, destProtected := false,
        openDestDir := Except.ok (), statDest := Except.ok false,
        openSourceOk := true, createDestOk := true, copyDataOk := true,
        statSourceOk := true, modTimeZero := false, setModTimeOk := true } =
      (some ⟨false, some CopyErr.destNotRegular⟩, none) := by
  rfl

/- ===================== Package download pipeline (lbengine) ============= -/

/-- The bytes of the hash type name "sha3-256", the constant
`filehash.SHA3_256`. -/
def sha3Type : ByteStr := [115, 104, 97, 51, 45, 50, 53, 54]

/-- A file hash entry, `filehash.Entry`: a hash type with the hash bytes. -/
structure HashEntry where
  type : ByteStr
  value : ByteStr
  deriving DecidableEq, Repr

/-- Embeds `filehash.Type.Priority`: only "sha3-256" is recognized. -/
def hashPriority (t : ByteStr) : Int :=
  if t = sha3Type then 1 else 0

/-- Embeds `filehash.CompareTypes`: higher priority first, then
lexicographic (`strings.Compare` is the bytewise `lexCompare`). -/
def compareTypes (a b : ByteStr) : Int :=
  if hashPriority a > hashPriority b then -1
  else if hashPriority a < hashPriority b then 1
  else lexCompare a b

/-- Embeds `filehash.CompareEntries`: by type, then by hash bytes. -/
def compareEntries (a b : HashEntry) : Int :=
  if compareTypes a.type b.type ≠ 0 then compareTypes a.type b.type
  else lexCompare a.value b.value

/-- Embeds `slices.CompareFunc(a, b, filehash.CompareEntries)`. -/
def compareEntryLists : List HashEntry → List HashEntry → Int
  | [], [] => 0
  | [], _ :: _ => -1
  | _ :: _, [] => 1
  | a :: as, b :: bs =>
    if compareEntries a b ≠ 0 then compareEntries a b
    else compareEntryLists as bs

/-- Insertion step of the sort used to embed `slices.SortFunc` over hash
entries. -/
def insertEntry (e : HashEntry) : List HashEntry → List HashEntry
  | [] => [e]
  | x :: xs => if compareEntries e x ≤ 0 then e :: x :: xs else x :: insertEntry e xs

/-- Embeds `filehash.Map.ToList`.  A `filehash.Map` (`map[Type]Value`,
unordered with distinct keys) is represented as a list of entries with
distinct types; `ToList` collects the entries and sorts them with
`slices.SortFunc(list, CompareEntries)`, rendered here as an insertion
sort by `compareEntries` (the iteration order of a Go map is arbitrary,
so only the sorted result is meaningful). -/
def mapToList : List HashEntry → List HashEntry
  | [] => []
  | e :: es => insertEntry e (mapToList es)

/-- Insertion step of the sort used to embed `slices.SortFunc` over hash
types. -/
def insertType (t : ByteStr) : List ByteStr → List ByteStr
  | [] => [t]
  | x :: xs => if compareTypes t x ≤ 0 then t :: x :: xs else x :: insertType t xs

/-- Embeds `filehash.Map.Types`: collect the hash types present in the map
and sort them with `slices.SortFunc(types, CompareTypes)`, rendered as an
insertion sort by `compareTypes`. -/
def mapTypes (entries : List HashEntry) : List ByteStr :=
  (entries.map (fun e => e.type)).foldr insertType []

/-- Embeds `lbdeploy.FileAttributes`: a byte size and a hash map. -/
structure FileAttributes where
  size : Int
  hashes : List HashEntry
  deriving DecidableEq, Repr

/-- Embeds `lbdeploy.EqualFileAttributes`: identical sizes and identical
hash lists under the canonical ordering. -/
def equalFileAttributes (a b : FileAttributes) : Bool :=
  if a.size ≠ b.size then false
  else if compareEntryLists (mapToList a.hashes) (mapToList b.hashes) ≠ 0 then false
  else true

/-- Embeds the loop of `NewFileVerifier`: walk the requested types, skip
duplicates, accept "sha3-256" and fail on anything else, keeping the
accepted types in order. -/
def newVerifierLoop (acc : List ByteStr) : List ByteStr → Option (List ByteStr)
  | [] => some acc
  | t :: ts =>
    if t ∈ acc then newVerifierLoop acc ts
    else if t = sha3Type then newVerifierLoop (acc ++ [t]) ts
    else none

/-- Embeds `NewFileVerifier`: the verifier is represented by the list of
hash types it tracks. -/
def newFileVerifier (types : List ByteStr) : Option (List ByteStr) :=
  newVerifierLoop [] types

/-- Embeds `FileVerifier.State` after the verifier has absorbed `content`:
the size is the byte count and each tracked type maps to its hash of the
content.  The hash algorithms themselves (crypto library) are the abstract
parameter `hashFn`. -/
def verifierState (hashFn : ByteStr → ByteStr → ByteStr) (types : List ByteStr)
    (content : ByteStr) : FileAttributes :=
  { size := (content.length : Int), hashes := types.map (fun t => ⟨t, hashFn t content⟩) }

/-- The expected attributes of a package,
`pkg.Definition.Attributes`. -/
structure Package where
  size : Int
  hashes : List HashEntry
  numSources : Nat

/-- The expected attributes of a package as a `FileAttributes` value. -/
def packageAttrs (pkg : Package) : FileAttributes :=
  ⟨pkg.size, pkg.hashes⟩

/-- The outcome of `downloadPackageFromSource` for one source, supplied by
the environment: failure, or completion leaving the staging file and the
verifier holding `content`.  The HTTP mechanics are external. -/
inductive SourceOutcome where
  | failure
  | success (content : ByteStr)

/-- The environment of a download: the per-(attempt, source-index) outcome
oracle and whether truncating the staging file succeeds. -/
structure DlEnv where
  download : Nat → Nat → SourceOutcome
  truncateOk : Bool

/-- The events recorded by `DownloadAndVerifyPackage`.  `sourceAttempt`
stands for the events emitted inside the abstracted per-source download
(`DownloadStarted`/`DownloadStopped` and their kin). -/
inductive DlEvent where
  | fileVerification
  | downloadReset
  | sourceAttempt (attempt idx : Nat)
  deriving DecidableEq, Repr

/-- The failure modes of `DownloadAndVerifyPackage`, in code order. -/
inductive DlErr where
  | unrecognizedHash
  | noHashes
  | noSources
  | sourcesFailed
  | resetFailed
  | verifyFailed
  deriving DecidableEq, Repr

/-- Embeds the inner source loop of one download pass: try each source in
declaration order, break on the first success, and collect an error for
every failed source.  Returns the events, whether any error was collected
(`errors.Join(errs...) != nil`), and the completed content if any. -/
def passLoop (env : DlEnv) (attempt : Nat) : List Nat → List DlEvent × Bool × Option ByteStr
  | [] => ([], false, none)
  | idx :: rest =>
    match env.download attempt idx with
    | SourceOutcome.success c => ([DlEvent.sourceAttempt attempt idx], false, some c)
    | SourceOutcome.failure =>
      ((DlEvent.sourceAttempt attempt idx) :: (passLoop env attempt rest).1,
       true,
       (passLoop env attempt rest).2.2)

/-- Embeds the `for attempt := 0; attempt < 2` loop of
`DownloadAndVerifyPackage`: run a pass over the sources; if any source
collected an error, return it (this is where the code stops even when a
later source completed); otherwise verify, succeed on a match, reset and
retry after a first-attempt mismatch, and fail after the second. -/
def attemptLoop (hashFn : ByteStr → ByteStr → ByteStr) (env : DlEnv) (pkg : Package)
    (types : List ByteStr) : Nat → Nat → List DlEvent × Option DlErr
  | 0, _ => ([], some DlErr.verifyFailed)
  | remaining + 1, attempt =>
    let pass := passLoop env attempt (List.range pkg.numSources)
    if pass.2.1 then (pass.1, some DlErr.sourcesFailed)
    else
      match pass.2.2 with
      | none => (pass.1, some DlErr.noSources)
      | some c =>
        if equalFileAttributes (packageAttrs pkg) (verifierState hashFn types c) then
          (pass.1 ++ [DlEvent.fileVerification], none)
        else if attempt = 0 then
          if env.truncateOk then
            ((pass.1 ++ [DlEvent.fileVerification, DlEvent.downloadReset])
               ++ (attemptLoop hashFn env pkg types remaining (attempt + 1)).1,
             (attemptLoop hashFn env pkg types remaining (attempt + 1)).2)
          else
            (pass.1 ++ [DlEvent.fileVerification, DlEvent.downloadReset],
             some DlErr.resetFailed)
        else
          ((pass.1 ++ [DlEvent.fileVerification])
             ++ (attemptLoop hashFn env pkg types remaining (attempt + 1)).1,
           (attemptLoop hashFn env pkg types remaining (attempt + 1)).2)

/-- Embeds `downloadEngine.DownloadAndVerifyPackage`: build the verifier
from the declared hash types (at least one required); absorb the existing
staging-file content; when the existing size already reaches the expected
size, emit `FileVerification` and succeed on matching attributes or reset
otherwise; then require at least one source and run up to two download
passes. -/
def downloadAndVerifyPackage (hashFn : ByteStr → ByteStr → ByteStr) (env : DlEnv)
    (pkg : Package) (existing : ByteStr) : List DlEvent × Option DlErr :=
  match newFileVerifier (mapTypes pkg.hashes) with
  | none => ([], some DlErr.unrecognizedHash)
  | some types =>
    if types.length = 0 then ([], some DlErr.noHashes)
    else
      if pkg.size ≤ (verifierState hashFn types existing).size then
        if equalFileAttributes (packageAttrs pkg) (verifierState hashFn types existing) then
          ([DlEvent.fileVerification], none)
        else if env.truncateOk then
          if pkg.numSources = 0 then
            ([DlEvent.fileVerification, DlEvent.downloadReset], some DlErr.noSources)
          else
            ([DlEvent.fileVerification, DlEvent.downloadReset]
               ++ (attemptLoop hashFn env pkg types 2 0).1,
             (attemptLoop hashFn env pkg types 2 0).2)
        else
          ([DlEvent.fileVerification, DlEvent.downloadReset], some DlErr.resetFailed)
      else
        if pkg.numSources = 0 then ([], some DlErr.noSources)
        else attemptLoop hashFn env pkg types 2 0

/-- C5: when the staging file's existing content already has exactly the
expected size and an element-wise equal hash map, download-and-verify
records a single `FileVerification` event (hence no `DownloadStarted`,
`DownloadStopped` or `DownloadReset` events) and succeeds. -/
theorem download_idempotent (hashFn : ByteStr → ByteStr → ByteStr) (env : DlEnv)
    (pkg : Package) (existing : ByteStr) (types : List ByteStr)
    (hv : newFileVerifier (mapTypes pkg.hashes) = some types)
    (hne : types.length ≠ 0)
    (hsz : (verifierState hashFn types existing).size = pkg.size)
    (hh : compareEntryLists (mapToList pkg.hashes)
            (mapToList (verifierState hashFn types existing).hashes) = 0) :
    downloadAndVerifyPackage hashFn env pkg existing = ([DlEvent.fileVerification], none) := by
  have heq : equalFileAttributes (packageAttrs pkg) (verifierState hashFn types existing) = true := by
    unfold equalFileAttributes
    rw [if_neg (by simp [packageAttrs, hsz]), if_neg (by simp [packageAttrs, hh])]
  unfold downloadAndVerifyPackage
  rw [hv]
  simp only [if_neg hne]
  rw [if_pos (by omega), if_pos heq]

/-- The abstract hash family used by the concrete download witnesses. -/
def hashLen : ByteStr → ByteStr → ByteStr :=
  fun _ c => [c.length]

/-- The package used by the download witnesses: expected size 1, one
sha3-256 hash equal to the hash of the one-byte content `[7]`, and two
declared sources. -/
def pkgW : Package :=
  ⟨1, [⟨sha3Type, [1]⟩], 2⟩

/-- Download environment for the C3 evaluation: the first source fails on
every attempt, the second completes with the content `[7]`. -/
def envW : DlEnv :=
  ⟨fun a i => if a = 0 ∧ i = 1 then SourceOutcome.success [7] else SourceOutcome.failure, true⟩

/-- C5 witness: `download_idempotent` at a concrete package and staging
content. -/
theorem download_idempotent_witness :
    downloadAndVerifyPackage hashLen envW pkgW [7] = ([DlEvent.fileVerification], none) :=
  download_idempotent hashLen envW pkgW [7] [sha3Type] (by rfl) (by decide)
    (by decide) (by decide)

/-- C3: the code evaluated at a package whose first source fails while the
second source completes a download whose attributes match: the second
source's content verifies, yet `DownloadAndVerifyPackage` returns the
joined error of the failed earlier source instead of succeeding. -/
theorem download_laterSource_stillFails :
    equalFileAttributes (packageAttrs pkgW) (verifierState hashLen [sha3Type] [7]) = true ∧
    (downloadAndVerifyPackage hashLen envW pkgW []).2 = some DlErr.sourcesFailed := by
  constructor <;> rfl

/- ===================== Flow orchestrator (lbengine flow engine) ========= -/

/-- Flow identifiers; opaque strings in Go, numbered here. -/
abbrev FlowID := Nat

/-- Condition identifiers. -/
abbrev CondID := Nat

/-- Lock identifiers. -/
abbrev LockID := Nat

/-- Embeds `lbdeploy.OnErrorBehavior`: unspecified, "stop" or "continue". -/
inductive OnError where
  | unspecified
  | stop
  | keepGoing
  deriving DecidableEq, Repr

/-- Embeds `lbdeploy.OverlayBehavior` for the two behaviors the flow engine
overlays: the later non-empty value wins. -/
def overlayBehavior (base overlay : OnError) : OnError :=
  if overlay ≠ OnError.unspecified then overlay else base

/-- A flow action: a nested start-flow, or one of the other action types
(prepare-package, invoke-command, copy-file, ...) abstracted to an oracle
outcome keyed by `k`. -/
inductive FlowAction where
  | startFlow (target : FlowID)
  | leaf (k : Nat)

/-- Embeds `lbdeploy.Flow`: preconditions, locks, a behavior override and
the ordered action list. -/
structure FlowDef where
  preconditions : List CondID
  locks : List LockID
  behavior : OnError
  actions : List FlowAction

/-- The events emitted by the flow and action engines that the claims
observe. -/
inductive FlowEvent where
  | flowAlreadyRunning (fid : FlowID)
  | flowConditionErr (fid : FlowID)
  | flowCondition (fid : FlowID) (passed failed : List CondID)
  | flowLockNotAcquired (fid : FlowID) (lock : LockID)
  | flowStarted (fid : FlowID)
  | flowStopped (fid : FlowID) (failed : Bool)
  | actionStarted (fid : FlowID) (idx : Nat)
  | actionStopped (fid : FlowID) (idx : Nat) (failed : Bool)
  deriving DecidableEq, Repr

/-- The engine state the flow engine manipulates: the active-flow set (as a
duplicate-free list) and the event log. -/
structure EngineSt where
  active : List FlowID
  events : List FlowEvent
  deriving DecidableEq, Repr

/-- Appends one event to the log. -/
def emitEvent (s : EngineSt) (e : FlowEvent) : EngineSt :=
  { s with events := s.events ++ [e] }

/-- The external outcomes the flow engine observes: cancellation, the
deployment-level behavior, condition evaluation, lock-group creation and
acquisition, and the outcomes of the abstracted leaf actions. -/
structure FlowEnv where
  cancelled : Bool
  depBehavior : OnError
  condEval : CondID → Except Unit Bool
  lockCreateOk : Bool
  lockAcquire : List LockID → Option LockID
  leafResult : Nat → Bool

/-- Embeds the precondition loop of `flowEngine.Invoke`: evaluate each
condition in declaration order, stopping at the first evaluation error,
otherwise partitioning into passed and failed lists. -/
def evalCondsLoop (env : FlowEnv) : List CondID → (List CondID × List CondID) ⊕ Unit
  | [] => Sum.inl ([], [])
  | c :: rest =>
    match env.condEval c with
    | Except.error _ => Sum.inr ()
    | Except.ok b =>
      match evalCondsLoop env rest with
      | Sum.inr u => Sum.inr u
      | Sum.inl (p, f) =>
        Sum.inl (if b then c :: p else p, if b then f else c :: f)

/-- Embeds `actionEngine.Invoke` for one action: bracket the dispatch with
`ActionStarted` and `ActionStopped`; a start-flow action looks up the
target flow and recurses through `nested`; other action types consult the
oracle. -/
def invokeOneAction (flows : FlowID → Option FlowDef) (env : FlowEnv)
    (nested : FlowID → EngineSt → Bool × EngineSt)
    (fid : FlowID) (idx : Nat) (a : FlowAction) (s : EngineSt) : Bool × EngineSt :=
  let s1 := emitEvent s (FlowEvent.actionStarted fid idx)
  let r :=
    match a with
    | FlowAction.leaf k => (env.leafResult k, s1)
    | FlowAction.startFlow t =>
      match flows t with
      | none => (false, s1)
      | some _ => nested t s1
  (r.1, emitEvent r.2 (FlowEvent.actionStopped fid idx (r.1 = false)))

/-- Embeds the action loop of `flowEngine.Invoke`: check cancellation
before each action, collect errors, and stop at the first error unless the
effective behavior is on-error continue.  The Bool is true when no error
was collected. -/
def runActions (flows : FlowID → Option FlowDef) (env : FlowEnv)
    (nested : FlowID → EngineSt → Bool × EngineSt)
    (fid : FlowID) (cont : Bool) : List (Nat × FlowAction) → EngineSt → Bool × EngineSt
  | [], s => (true, s)
  | (idx, a) :: rest, s =>
    if env.cancelled then (false, s)
    else
      match invokeOneAction flows env nested fid idx a s with
      | (true, s1) => runActions flows env nested fid cont rest s1
      | (false, s1) =>
        if cont then (false, (runActions flows env nested fid cont rest s1).2)
        else (false, s1)

/-- One invocation of `flowEngine.Invoke` on a looked-up flow definition,
with nested start-flow invocations performed by `nested`: cancellation
check; cycle check against the active-flow set (emitting
`FlowAlreadyRunning` and failing before preconditions, locks or actions);
precondition evaluation; lock-group creation and acquisition; behavior
overlay; insertion into the active set; `FlowStarted`; the action loop;
removal from the active set; `FlowStopped`. -/
def invokeFlowStep (flows : FlowID → Option FlowDef) (env : FlowEnv)
    (nested : FlowID → EngineSt → Bool × EngineSt)
    (fid : FlowID) (fd : FlowDef) (s : EngineSt) : Bool × EngineSt :=
  if env.cancelled then (false, s)
  else if fid ∈ s.active then
    (false, emitEvent s (FlowEvent.flowAlreadyRunning fid))
  else
    let pre : Bool × EngineSt :=
      if fd.preconditions = [] then (true, s)
      else
        match evalCondsLoop env fd.preconditions with
        | Sum.inr _ => (false, emitEvent s (FlowEvent.flowConditionErr fid))
        | Sum.inl (p, f) =>
          (f = [], emitEvent s (FlowEvent.flowCondition fid p f))
    if pre.1 = false then (false, pre.2)
    else
      let lk : Bool × EngineSt :=
        if fd.locks = [] then (true, pre.2)
        else if env.lockCreateOk = false then (false, pre.2)
        else
          match env.lockAcquire fd.locks with
          | some l => (false, emitEvent pre.2 (FlowEvent.flowLockNotAcquired fid l))
          | none => (true, pre.2)
      if lk.1 = false then (false, lk.2)
      else
        let cont := overlayBehavior env.depBehavior fd.behavior = OnError.keepGoing
        let s3 := emitEvent { lk.2 with active := lk.2.active ++ [fid] }
          (FlowEvent.flowStarted fid)
        let r := runActions flows env nested fid cont fd.actions.enum s3
        let s5 := { r.2 with active := r.2.active.filter (fun x => x ≠ fid) }
        (r.1, emitEvent s5 (FlowEvent.flowStopped fid (r.1 = false)))

/-- Embeds `flowEngine.Invoke` with a recursion-depth fuel (the Go code
recurses directly; fuel zero is never reached when it exceeds the flow
nesting depth, and the active-set invariant below holds for every fuel). -/
def invokeFlow (flows : FlowID → Option FlowDef) (env : FlowEnv) :
    Nat → FlowID → EngineSt → Bool × EngineSt
  | 0, _, s => (false, s)
  | fuel + 1, fid, s =>
    match flows fid with
    | none => (false, s)
    | some fd => invokeFlowStep flows env (invokeFlow flows env fuel) fid fd s

theorem invokeOneAction_active (flows : FlowID → Option FlowDef) (env : FlowEnv)
    (nested : FlowID → EngineSt → Bool × EngineSt)
    (hnested : ∀ t s, ((nested t s).2).active = s.active)
    (fid : FlowID) (idx : Nat) (a : FlowAction) (s : EngineSt) :
    ((invokeOneAction flows env nested fid idx a s).2).active = s.active := by
  unfold invokeOneAction
  cases a with
  | leaf k => simp [emitEvent]
  | startFlow t =>
    cases ht : flows t with
    | none => simp [emitEvent, ht]
    | some fd => simp [emitEvent, ht, hnested t]

theorem runActions_active (flows : FlowID → Option FlowDef) (env : FlowEnv)
    (nested : FlowID → EngineSt → Bool × EngineSt)
    (hnested : ∀ t s, ((nested t s).2).active = s.active)
    (fid : FlowID) (cont : Bool) :
    ∀ (acts : List (Nat × FlowAction)) (s : EngineSt),
      ((runActions flows env nested fid cont acts s).2).active = s.active := by
  intro acts
  induction acts with
  | nil =>
    intro s
    simp [runActions]
  | cons pair rest ih =>
    intro s
    obtain ⟨idx, a⟩ := pair
    rw [runActions]
    by_cases hcan : env.cancelled
    · simp [hcan]
    · simp only [if_neg hcan]
      rcases hr : invokeOneAction flows env nested fid idx a s with ⟨ok, s1⟩
      have hact : s1.active = s.active := by
        have := invokeOneAction_active flows env nested hnested fid idx a s
        rw [hr] at this
        exact this
      cases ok with
      | true =>
        simp only []
        rw [ih s1, hact]
      | false =>
        by_cases hcont : cont
        · simp only [if_pos hcont]
          rw [ih s1, hact]
        · simp only [if_neg hcont]
          exact hact

theorem invokeFlowStep_active (flows : FlowID → Option FlowDef) (env : FlowEnv)
    (nested : FlowID → EngineSt → Bool × EngineSt)
    (hnested : ∀ t s, ((nested t s).2).active = s.active)
    (fid : FlowID) (fd : FlowDef) (s : EngineSt) :
    ((invokeFlowStep flows env nested fid fd s).2).active = s.active := by
  unfold invokeFlowStep
  by_cases hcan : env.cancelled
  · simp [hcan]
  · simp only [if_neg hcan]
    by_cases hmem : fid ∈ s.active
    · simp [hmem, emitEvent]
    · simp only [if_neg hmem]
      set pre : Bool × EngineSt :=
        if fd.preconditions = [] then (true, s)
        else
          match evalCondsLoop env fd.preconditions with
          | Sum.inr _ => (false, emitEvent s (FlowEvent.flowConditionErr fid))
          | Sum.inl (p, f) =>
            (f = [], emitEvent s (FlowEvent.flowCondition fid p f)) with hpre
      have hpreActive : (pre.2).active = s.active := by
        rw [hpre]
        by_cases hp : fd.preconditions = []
        · simp [hp]
        · simp only [if_neg hp]
          cases evalCondsLoop env fd.preconditions with
          | inr u => simp [emitEvent]
          | inl pf =>
            obtain ⟨p, f⟩ := pf
            simp [emitEvent]
      by_cases hpre1 : pre.1 = false
      · simp only [if_pos hpre1]
        exact hpreActive
      · simp only [if_neg hpre1]
        set lk : Bool × EngineSt :=
          if fd.locks = [] then (true, pre.2)
          else if env.lockCreateOk = false then (false, pre.2)
          else
            match env.lockAcquire fd.locks with
            | some l => (false, emitEvent pre.2 (FlowEvent.flowLockNotAcquired fid l))
            | none => (true, pre.2) with hlk
        have hlkActive : (lk.2).active = s.active := by
          rw [hlk]
          by_cases hl : fd.locks = []
          · simpa [hl] using hpreActive
          · simp only [if_neg hl]
            by_cases hcr : env.lockCreateOk = false
            · simpa [hcr] using hpreActive
            · simp only [if_neg hcr]
              cases env.lockAcquire fd.locks with
              | some l => simpa [emitEvent] using hpreActive
              | none => simpa using hpreActive
        by_cases hlk1 : lk.1 = false
        · simp only [if_pos hlk1]
          exact hlkActive
        · simp only [if_neg hlk1]
          have hrun := runActions_active flows env nested hnested fid
            (overlayBehavior env.depBehavior fd.behavior = OnError.keepGoing)
            fd.actions.enum
            (emitEvent { lk.2 with active := lk.2.active ++ [fid] } (FlowEvent.flowStarted fid))
          simp only [emitEvent] at hrun ⊢
          rw [hrun, hlkActive]
          have hnotin : ∀ x ∈ s.active, decide (x ≠ fid) = true := by
            intro x hx
            simp only [decide_eq_true_eq, ne_eq]
            intro hxe
            exact hmem (hxe ▸ hx)
          rw [List.filter_append]
          rw [List.filter_eq_self.mpr hnotin]
          simp

theorem invokeFlow_active (flows : FlowID → Option FlowDef) (env : FlowEnv) :
    ∀ (fuel : Nat) (fid : FlowID) (s : EngineSt),
      ((invokeFlow flows env fuel fid s).2).active = s.active := by
  intro fuel
  induction fuel with
  | zero =>
    intro fid s
    simp [invokeFlow]
  | succ fuel ih =>
    intro fid s
    rw [invokeFlow]
    cases hf : flows fid with
    | none => simp
    | some fd =>
      simp only []
      exact invokeFlowStep_active flows env (invokeFlow flows env fuel)
        (fun t s2 => ih t s2) fid fd s

/-- C8: invoking a flow whose id is already in the active-flow set emits a
`FlowAlreadyRunning` event and fails, with nothing else executed (the
state is otherwise untouched, so no precondition, lock or action of the
nested invocation ran, whatever the environment supplies); and every
invocation leaves the active-flow set exactly as it found it, on every
exit path. -/
theorem flow_cycleDetection (flows : FlowID → Option FlowDef) (env : FlowEnv) :
    (∀ (fuel : Nat) (fid : FlowID) (fd : FlowDef) (s : EngineSt),
      env.cancelled = false → flows fid = some fd → fid ∈ s.active →
        invokeFlow flows env (fuel + 1) fid s =
          (false, { s with events := s.events ++ [FlowEvent.flowAlreadyRunning fid] })) ∧
    (∀ (fuel : Nat) (fid : FlowID) (s : EngineSt),
      ((invokeFlow flows env fuel fid s).2).active = s.active) := by
  constructor
  · intro fuel fid fd s hcan hf hmem
    rw [invokeFlow, hf]
    simp only []
    unfold invokeFlowStep
    rw [if_neg (by simp [hcan]), if_pos hmem]
    rfl
  · exact invokeFlow_active flows env

/-- The deployment used by the C8 witness: flow 0 starts itself. -/
def flowsW : FlowID → Option FlowDef :=
  fun f => if f = 0 then some ⟨[], [], OnError.unspecified, [FlowAction.startFlow 0]⟩ else none

/-- The environment used by the C8 witness: nothing cancelled, no
deployment behavior, every leaf action succeeds, locks acquirable. -/
def flowEnvW : FlowEnv :=
  ⟨false, OnError.unspecified, fun _ => Except.ok true, true, fun _ => none, fun _ => true⟩

/-- C8 witness: invoking flow 0 while it is already active emits exactly
`FlowAlreadyRunning` and fails; and an invocation from an empty active set
restores the empty active set. -/
theorem flow_cycleDetection_witness :
    invokeFlow flowsW flowEnvW (2 + 1) 0 ⟨[0], []⟩ =
      (false, { active := [0], events := [] ++ [FlowEvent.flowAlreadyRunning 0] }) ∧
    ((invokeFlow flowsW flowEnvW 5 0 ⟨[], []⟩).2).active = [] :=
  ⟨(flow_cycleDetection flowsW flowEnvW).1 2 0
      ⟨[], [], OnError.unspecified, [FlowAction.startFlow 0]⟩ ⟨[0], []⟩ rfl rfl
      (by simp),
   (flow_cycleDetection flowsW flowEnvW).2 5 0 ⟨[], []⟩⟩

/- ===================== Output decoding (bytesconv package) ============== -/

/-- A byte order, `binary.LittleEndian` or `binary.BigEndian`. -/
inductive ByteOrder where
  | le
  | be
  deriving DecidableEq, Repr

/-- `order.Uint16` on two consecutive bytes. -/
def uint16At (o : ByteOrder) (b1 b2 : Nat) : Nat :=
  match o with
  | ByteOrder.le => b1 + 256 * b2
  | ByteOrder.be => 256 * b1 + b2

/-- Embeds `HasUTF16BOM`: at least two bytes whose leading 16-bit word is
0xFEFF in the given order. -/
def hasUTF16BOM (o : ByteOrder) : ByteStr → Bool
  | b1 :: b2 :: _ => uint16At o b1 b2 == 0xFEFF
  | _ => false

/-- The consecutive 16-bit words of a byte string in the given order,
dropping a trailing odd byte as `DecodeUTF16` does. -/
def toU16s (o : ByteOrder) : ByteStr → List Nat
  | b1 :: b2 :: rest => uint16At o b1 b2 :: toU16s o rest
  | _ => []

/-- Embeds `utf16.DecodeRune`: combine a surrogate pair, yielding the
replacement character U+FFFD when the pair is invalid. -/
def utf16DecodeRune (r1 r2 : Nat) : Nat :=
  if (0xD800 ≤ r1 ∧ r1 < 0xDC00) ∧ (0xDC00 ≤ r2 ∧ r2 < 0xE000) then
    (r1 - 0xD800) * 1024 + (r2 - 0xDC00) + 0x10000
  else 0xFFFD

/-- Embeds `utf16.Decode`: non-surrogate words pass through, valid pairs
combine, and unpaired surrogate halves become U+FFFD. -/
def utf16Decode : List Nat → List Nat
  | [] => []
  | [r] => if r < 0xD800 ∨ 0xE000 ≤ r then [r] else [0xFFFD]
  | r :: r2 :: rest =>
    if r < 0xD800 ∨ 0xE000 ≤ r then r :: utf16Decode (r2 :: rest)
    else if (0xD800 ≤ r ∧ r < 0xDC00) ∧ (0xDC00 ≤ r2 ∧ r2 < 0xE000) then
      utf16DecodeRune r r2 :: utf16Decode rest
    else 0xFFFD :: utf16Decode (r2 :: rest)

/-- The UTF-8 encoding of a rune, as Go's `string([]rune)` conversion
produces it: surrogates and out-of-range values encode as U+FFFD. -/
def encodeUTF8 (r : Nat) : ByteStr :=
  if r < 0x80 then [r]
  else if r < 0x800 then [0xC0 + r / 64, 0x80 + r % 64]
  else if r < 0x10000 then
    if 0xD800 ≤ r ∧ r < 0xE000 then [0xEF, 0xBF, 0xBD]
    else [0xE0 + r / 4096, 0x80 + (r / 64) % 64, 0x80 + r % 64]
  else if r ≤ 0x10FFFF then
    [0xF0 + r / 262144, 0x80 + (r / 4096) % 64, 0x80 + (r / 64) % 64, 0x80 + r % 64]
  else [0xEF, 0xBF, 0xBD]

/-- The bytes of the string built from a list of runes. -/
def encodeRunes : List Nat → ByteStr
  | [] => []
  | r :: rs => encodeUTF8 r ++ encodeRunes rs

/-- Embeds `DecodeUTF16`: lenient decoding with replacement characters. -/
def decodeUTF16 (o : ByteOrder) (p : ByteStr) : ByteStr :=
  encodeRunes (utf16Decode (toU16s o p))

/-- Embeds the word loop of `ParseUTF16`: the source accepts a leading word
in [0xD800, 0xDC00] paired with a word in [0xDC00, 0xE000] (both bounds
inclusive, as written there) and otherwise fails on surrogate-range
words. -/
def parseU16s : List Nat → Option (List Nat)
  | [] => some []
  | [r] => if r < 0xD800 ∨ 0xE000 ≤ r then some [r] else none
  | r :: r2 :: rest =>
    if r < 0xD800 ∨ 0xE000 ≤ r then (parseU16s (r2 :: rest)).map (fun t => r :: t)
    else if (0xD800 ≤ r ∧ r ≤ 0xDC00) ∧ (0xDC00 ≤ r2 ∧ r2 ≤ 0xE000) then
      (parseU16s rest).map (fun t => utf16DecodeRune r r2 :: t)
    else none

/-- Embeds `ParseUTF16`: empty input gives the empty string, odd lengths
fail, otherwise the word loop decides. -/
def parseUTF16 (o : ByteOrder) (p : ByteStr) : Option ByteStr :=
  if p = [] then some []
  else if p.length % 2 ≠ 0 then none
  else (parseU16s (toU16s o p)).map encodeRunes

/-- The base64 raw URL alphabet, by index. -/
def base64URLChar (n : Nat) : Nat :=
  if n < 26 then 65 + n
  else if n < 52 then 97 + (n - 26)
  else if n < 62 then 48 + (n - 52)
  else if n = 62 then 45
  else 95

/-- Embeds `base64.RawURLEncoding.EncodeToString`: unpadded base64 over the
URL alphabet. -/
def base64RawURL : ByteStr → ByteStr
  | [] => []
  | [b1] => [base64URLChar (b1 / 4), base64URLChar (b1 % 4 * 16)]
  | [b1, b2] =>
    [base64URLChar (b1 / 4), base64URLChar (b1 % 4 * 16 + b2 / 16),
     base64URLChar (b2 % 16 * 4)]
  | b1 :: b2 :: b3 :: rest =>
    base64URLChar (b1 / 4) :: base64URLChar (b1 % 4 * 16 + b2 / 16) ::
    base64URLChar (b2 % 16 * 4 + b3 / 64) :: base64URLChar (b3 % 64) ::
    base64RawURL rest

/-- The lower bound Go's UTF-8 acceptance table imposes on the byte after
the start byte `b`. -/
def utf8FirstLo (b : Nat) : Nat :=
  if b = 0xE0 then 0xA0 else if b = 0xF0 then 0x90 else 0x80

/-- The upper bound Go's UTF-8 acceptance table imposes on the byte after
the start byte `b`. -/
def utf8FirstHi (b : Nat) : Nat :=
  if b = 0xED then 0x9F else if b = 0xF4 then 0x8F else 0xBF

/-- Embeds the byte loop of `utf8.Valid` as the state machine Go's
acceptance tables drive: `pending` counts the continuation bytes still
owed, and `lo`/`hi` bound the next byte.  At a boundary, ASCII passes;
2-, 3- and 4-byte sequences need a start byte in the accepted ranges
followed by that many in-range bytes; everything else (including 0xC0,
0xC1 and bytes at or above 0xF5) is invalid. -/
def utf8ValidLoop : Nat → Nat → Nat → ByteStr → Bool
  | 0, _, _, [] => true
  | _ + 1, _, _, [] => false
  | 0, _, _, b :: rest =>
    if b ≤ 0x7F then utf8ValidLoop 0 0 0 rest
    else if 0xC2 ≤ b ∧ b ≤ 0xDF then utf8ValidLoop 1 0x80 0xBF rest
    else if 0xE0 ≤ b ∧ b ≤ 0xEF then utf8ValidLoop 2 (utf8FirstLo b) (utf8FirstHi b) rest
    else if 0xF0 ≤ b ∧ b ≤ 0xF4 then utf8ValidLoop 3 (utf8FirstLo b) (utf8FirstHi b) rest
    else false
  | pending + 1, lo, hi, b :: rest =>
    if lo ≤ b ∧ b ≤ hi then utf8ValidLoop pending 0x80 0xBF rest
    else false

/-- Embeds `utf8.Valid`. -/
def utf8Valid (p : ByteStr) : Bool :=
  utf8ValidLoop 0 0 0 p

/-- `bytes.ContainsRune(p, 0)`: the NUL rune is the single byte 0. -/
def containsZero (p : ByteStr) : Bool :=
  p.contains 0

/-- Embeds `DecodeString`: empty input gives the empty string; a UTF-16
byte order mark selects lenient UTF-16 decoding; valid NUL-free UTF-8 is
returned unchanged; otherwise strict UTF-16 little then big endian is
attempted, and base64 raw URL encoding is the last resort. -/
def decodeString (p : ByteStr) : ByteStr :=
  if p = [] then []
  else if hasUTF16BOM ByteOrder.le p then decodeUTF16 ByteOrder.le (p.drop 2)
  else if hasUTF16BOM ByteOrder.be p then decodeUTF16 ByteOrder.be (p.drop 2)
  else if utf8Valid p ∧ containsZero p = false then p
  else
    match parseUTF16 ByteOrder.le p with
    | some out => out
    | none =>
      match parseUTF16 ByteOrder.be p with
      | some out => out
      | none => base64RawURL p

theorem utf8Valid_head_le {b : Nat} {rest : ByteStr}
    (h : utf8Valid (b :: rest) = true) : b ≤ 0xF4 := by
  by_contra hgt
  push_neg at hgt
  have h1 : ¬ (b ≤ 0x7F) := by omega
  have h2 : ¬ (0xC2 ≤ b ∧ b ≤ 0xDF) := by omega
  have h3 : ¬ (0xE0 ≤ b ∧ b ≤ 0xEF) := by omega
  have h4 : ¬ (0xF0 ≤ b ∧ b ≤ 0xF4) := by omega
  rw [utf8Valid, utf8ValidLoop, if_neg h1, if_neg h2, if_neg h3, if_neg h4] at h
  exact Bool.false_ne_true h

/-- C10: `DecodeString` is the identity on valid UTF-8 byte sequences that
contain no NUL byte: such input cannot begin with a UTF-16 byte order mark
(a valid start byte is at most 0xF4, below 0xFE and 0xFF), so the BOM
branches, the UTF-16 fallbacks and the base64 fallback are all skipped. -/
theorem decodeString_utf8_identity (p : ByteStr)
    (hbytes : ∀ b ∈ p, b < 256)
    (hv : utf8Valid p = true) (hz : containsZero p = false) :
    decodeString p = p := by
  cases p with
  | nil => rfl
  | cons b rest =>
    have hb : b ≤ 0xF4 := utf8Valid_head_le hv
    have hnotLE : hasUTF16BOM ByteOrder.le (b :: rest) = false := by
      cases rest with
      | nil => rfl
      | cons c tl =>
        have hc : c < 256 := hbytes c (by simp)
        simp only [hasUTF16BOM, uint16At, beq_eq_false_iff_ne, ne_eq]
        omega
    have hnotBE : hasUTF16BOM ByteOrder.be (b :: rest) = false := by
      cases rest with
      | nil => rfl
      | cons c tl =>
        have hc : c < 256 := hbytes c (by simp)
        simp only [hasUTF16BOM, uint16At, beq_eq_false_iff_ne, ne_eq]
        omega
    unfold decodeString
    rw [if_neg (by simp), if_neg (by simp [hnotLE]), if_neg (by simp [hnotBE]),
      if_pos ⟨by simp [hv], hz⟩]

/-- C10 witness: the two-byte ASCII string "hi". -/
theorem decodeString_utf8_identity_witness :
    decodeString [104, 105] = [104, 105] :=
  decodeString_utf8_identity [104, 105] (by decide) (by decide) (by decide)

end LeafBridge
